import Mathlib

/-!
Verification of the telemetry core of `groundstation.py`.

The program keeps module-level state (a latest-quaternion cell, three
bounded position deques, three engine flags, a bounded raw-line deque,
a session start time and a last-toggle time), mutated by the serial read
loop `read_serial`, reset by `disconnect_serial`, and read by the
periodic `update_plot` callback.  We embed that state as `GSState`, the
per-line body of the read loop as `processLine`, the disconnect reset as
`disconnect_serial`, and the axis-bound logic of `update_plot` as
`updateBounds`.  Machine floats are modelled as exact rationals and
Python's `float(...)` builtin as `parseFloat?`, which covers the plain
signed decimal/scientific literals that telemetry lines carry.
-/

set_option maxRecDepth 4000

/-- Append to a Python `collections.deque(maxlen := cap)`: when the deque is
at capacity the oldest (leftmost) element is discarded first. -/
def dappend {α : Type} (cap : Nat) (l : List α) (x : α) : List α :=
  if cap ≤ l.length then l.tail ++ [x] else l ++ [x]

/-- Python's `str.split(sep)` for a one-character separator `c`: splitting
the empty string gives `[""]`, and separators delimit (possibly empty)
chunks. -/
def splitOnChar (c : Char) : List Char → List (List Char)
  | [] => [[]]
  | x :: xs =>
    let r := splitOnChar c xs
    if x = c then [] :: r
    else
      match r with
      | [] => [[x]]
      | h :: t => (x :: h) :: t

/-- Numeric value of a (nonempty, all-digit) run of decimal digits. -/
def natOfDigits (l : List Char) : Nat :=
  l.foldl (fun n c => n * 10 + (c.toNat - 48)) 0

/-- Whether every character of the list is a decimal digit. -/
def allDigits (l : List Char) : Bool :=
  l.all Char.isDigit

/-- An unsigned decimal mantissa as Python `float` accepts it:
`"12"`, `"12."`, `"12.5"`, `".5"`; anything else fails.  The exact value
is returned as a numerator/denominator pair. -/
def parseUnsigned? (l : List Char) : Option (Nat × Nat) :=
  let intPart := l.takeWhile Char.isDigit
  let rest := l.dropWhile Char.isDigit
  match rest with
  | [] => if intPart = [] then none else some (natOfDigits intPart, 1)
  | '.' :: frac =>
    if allDigits frac ∧ (intPart ≠ [] ∨ frac ≠ []) then
      some (natOfDigits intPart * 10 ^ frac.length + natOfDigits frac,
        10 ^ frac.length)
    else none
  | _ => none

/-- An optionally signed decimal exponent, as after the `e` of `"1e-3"`. -/
def parseExp? (l : List Char) : Option Int :=
  match l with
  | '+' :: ds => if ds ≠ [] ∧ allDigits ds then some (Int.ofNat (natOfDigits ds)) else none
  | '-' :: ds => if ds ≠ [] ∧ allDigits ds then some (Int.negOfNat (natOfDigits ds)) else none
  | ds => if ds ≠ [] ∧ allDigits ds then some (Int.ofNat (natOfDigits ds)) else none

/-- Unsigned mantissa with an optional `e`/`E` exponent part, as an exact
numerator/denominator pair. -/
def parseBody? (l : List Char) : Option (Nat × Nat) :=
  let mant := l.takeWhile (fun c => c ≠ 'e' ∧ c ≠ 'E')
  match l.dropWhile (fun c => c ≠ 'e' ∧ c ≠ 'E') with
  | [] => parseUnsigned? mant
  | _ :: expPart =>
    match parseUnsigned? mant, parseExp? expPart with
    | some (n, d), some (Int.ofNat k) => some (n * 10 ^ k, d)
    | some (n, d), some (Int.negSucc k) => some (n, d * 10 ^ (k + 1))
    | _, _ => none

/-- Whether the character is ASCII whitespace (Python strips these around
the argument of `float`). -/
def isWs (c : Char) : Bool :=
  c = ' ' ∨ c = '\t' ∨ c = '\n' ∨ c = '\r'

/-- Model of Python's `float(s)` builtin on the exact-decimal literals the
telemetry protocol uses: optional surrounding whitespace, an optional
sign, a decimal mantissa and an optional exponent, evaluated exactly over
the rationals.  (`inf`/`nan` spellings and digit underscores are outside
the modelled fragment; no claim depends on them.)  `none` models the
`ValueError` Python raises on a non-numeric string. -/
def parseFloat? (s : List Char) : Option Rat :=
  let t := ((s.dropWhile isWs).reverse.dropWhile isWs).reverse
  match t with
  | '+' :: rest => (parseBody? rest).map (fun p => mkRat (Int.ofNat p.1) p.2)
  | '-' :: rest => (parseBody? rest).map (fun p => mkRat (Int.negOfNat p.1) p.2)
  | _ => (parseBody? t).map (fun p => mkRat (Int.ofNat p.1) p.2)

/-- The module-level mutable state of `groundstation.py` that the claims
are about.  `latest_quaternion` is the `deque(maxlen := 1)` cell, held in
the internal `(qx, qy, qz, qw)` order; `last_toggle_time` models the
`read_serial.last_toggle_time` function attribute (initialised to `0` on
first use, which is observationally the same as starting at `0`). -/
structure GSState where
  latest_quaternion : Rat × Rat × Rat × Rat
  x_positions : List Rat
  y_positions : List Rat
  z_positions : List Rat
  engine_states : List Bool
  raw_serial_lines : List (List Char)
  start_time : Option Rat
  last_toggle_time : Rat
deriving DecidableEq

/-- The initial values of the module-level globals. -/
def initialState : GSState :=
  { latest_quaternion := (0, 0, 0, 1)
    x_positions := []
    y_positions := []
    z_positions := []
    engine_states := [false, false, false]
    raw_serial_lines := []
    start_time := none
    last_toggle_time := 0 }

/-- `decoded_line.startswith("DATA:")`. -/
def startsWithData (l : List Char) : Bool :=
  l.take 5 = ("DATA:").toList

/-- The comma-separated fields the read loop parses:
`parts = decoded_line.split(":")` followed by `parts[1].split(",")` —
only the text between the first and second colon is examined. -/
def dataFields (line : List Char) : List (List Char) :=
  splitOnChar ',' ((splitOnChar ':' line).getD 1 [])

/-- `float(data_str[i])`: `none` models both the `IndexError` of a missing
field and the `ValueError` of a non-numeric one (the read loop catches
both in the same `except` clause). -/
def parseField (fields : List (List Char)) (i : Nat) : Option Rat :=
  (fields[i]?).bind parseFloat?

/-- Python `int()` applied to the nonnegative-or-negative rational elapsed
time: truncation toward zero. -/
def pyInt (q : Rat) : Int :=
  Int.tdiv q.num (Int.ofNat q.den)

/-- The placeholder engine rule at the end of a successfully parsed frame:
when the integer elapsed seconds since `start_time` are a nonzero multiple
of 5 and more than 5 seconds have passed since the last toggle, engine 0
is toggled and the last-toggle time updated.  `now` stands for the value
`time.time()` returns during this loop iteration; `start_time` is always
set while the read loop runs, so the `none` branch is vacuous. -/
def engineUpdate (now : Rat) (st : GSState) : GSState :=
  match st.start_time with
  | none => st
  | some s0 =>
    if Int.emod (pyInt (now - s0)) 5 = 0 ∧ pyInt (now - s0) ≠ 0 then
      if (5 : Rat) < now - st.last_toggle_time then
        { st with
            engine_states := st.engine_states.set 0 (! st.engine_states.headD false)
            last_toggle_time := now }
      else st
    else st

/-- One iteration of the body of `read_serial` on a decoded, stripped
line: record the raw line, and if it starts with `DATA:` parse the fields
between the first and second colon.  The quaternion is stored (reordered
from wire `(qw,qx,qy,qz)` to internal `(qx,qy,qz,qw)`) as soon as the
first four fields have parsed; only then are the three position fields
parsed and appended.  A failure at any point abandons the rest of the
`try` block but keeps the mutations already made — exactly the
`except (ValueError, IndexError)` control flow of the source. -/
def processLine (now : Rat) (st : GSState) (line : List Char) : GSState :=
  let st1 := { st with raw_serial_lines := dappend 200 st.raw_serial_lines line }
  if startsWithData line then
    match parseField (dataFields line) 0, parseField (dataFields line) 1,
          parseField (dataFields line) 2, parseField (dataFields line) 3 with
    | some qW, some qX, some qY, some qZ =>
      let st2 := { st1 with latest_quaternion := (qX, qY, qZ, qW) }
      match parseField (dataFields line) 4, parseField (dataFields line) 5,
            parseField (dataFields line) 6 with
      | some x, some y, some z =>
        engineUpdate now
          { st2 with
              x_positions := dappend 500 st2.x_positions x
              y_positions := dappend 500 st2.y_positions y
              z_positions := dappend 500 st2.z_positions z }
      | _, _, _ => st2
    | _, _, _, _ => st1
  else st1

/-- The state reset performed by `disconnect_serial`: `start_time := None`,
the attitude cell cleared and refilled with the identity quaternion, the
three position deques cleared, every engine flag set to `False`
(`for i in range(len(engine_states))`), and the raw-line deque cleared.
The `last_toggle_time` function attribute is not touched. -/
def disconnect_serial (st : GSState) : GSState :=
  { st with
      start_time := none
      latest_quaternion := (0, 0, 0, 1)
      x_positions := []
      y_positions := []
      z_positions := []
      engine_states := st.engine_states.map (fun _ => false)
      raw_serial_lines := [] }

/-- `min` of a Python iterable of numbers (callers guard non-emptiness,
as `update_plot` does). -/
def listMin : List Rat → Rat
  | [] => 0
  | a :: t => t.foldl min a

/-- `max` of a Python iterable of numbers (callers guard non-emptiness). -/
def listMax : List Rat → Rat
  | [] => 0
  | a :: t => t.foldl max a

/-- The three axis ranges of the position plot. -/
structure Bounds where
  xlim : Rat × Rat
  ylim : Rat × Rat
  zlim : Rat × Rat
deriving DecidableEq

/-- The default ±10 ranges the position plot is created with and reset to. -/
def defaultBounds : Bounds :=
  { xlim := (-10, 10), ylim := (-10, 10), zlim := (-10, 10) }

/-- The axis-limit logic of `update_plot`: the whole position block runs
only when all three deques are truthy (non-empty); inside it, limits are
set to min/max of each deque ± a buffer of 1.0 when `len(x_positions) > 1`,
to the fixed ±10 default when the trail has a single point, and are left
at their previous values when the trail is empty. -/
def updateBounds (st : GSState) (prev : Bounds) : Bounds :=
  if st.x_positions ≠ [] ∧ st.y_positions ≠ [] ∧ st.z_positions ≠ [] then
    if 1 < st.x_positions.length then
      { xlim := (listMin st.x_positions - 1, listMax st.x_positions + 1)
        ylim := (listMin st.y_positions - 1, listMax st.y_positions + 1)
        zlim := (listMin st.z_positions - 1, listMax st.z_positions + 1) }
    else defaultBounds
  else prev

/-- The last `n` elements of a list, in order. -/
def takeLast {α : Type} (n : Nat) (l : List α) : List α :=
  l.drop (l.length - n)

/-- The contents of one `deque(maxlen := cap)` after appending the values
of `ps` in order, starting from empty. -/
def foldTrail (cap : Nat) (ps : List Rat) : List Rat :=
  ps.foldl (dappend cap) []

/-- One atomic deque operation of the read-loop thread.  The three
position appends of `read_serial` are three separate deque operations
with no lock around them; each single `deque.append` is atomic, but the
interpreter may run the GUI thread between any two of them. -/
inductive WAction where
  | wx : Rat → WAction
  | wy : Rat → WAction
  | wz : Rat → WAction
deriving DecidableEq

/-- What a snapshot of the three position deques observes. -/
structure Trails where
  xs : List Rat
  ys : List Rat
  zs : List Rat
deriving DecidableEq

/-- Effect of one atomic deque append on the shared trail state. -/
def wstep (s : Trails) : WAction → Trails
  | WAction.wx v => { s with xs := dappend 500 s.xs v }
  | WAction.wy v => { s with ys := dappend 500 s.ys v }
  | WAction.wz v => { s with zs := dappend 500 s.zs v }

/-- The sequence of atomic deque operations the read-loop thread performs
while applying a list of frames: for each frame, `x_positions.append`,
then `y_positions.append`, then `z_positions.append`. -/
def writerProgram : List (Rat × Rat × Rat) → List WAction
  | [] => []
  | (x, y, z) :: fs => WAction.wx x :: WAction.wy y :: WAction.wz z :: writerProgram fs

/-- The trail state a reader observes when it snapshots after the writer
has executed the first `k` atomic operations of its program (starting
from empty deques).  Ranging over all `k`, these are exactly the
observable intermediate states of the unsynchronized writer. -/
def observeAt (frames : List (Rat × Rat × Rat)) (k : Nat) : Trails :=
  ((writerProgram frames).take k).foldl wstep { xs := [], ys := [], zs := [] }

/-- The values a list of atomic operations appends to `x_positions`. -/
def xVals : List WAction → List Rat
  | [] => []
  | WAction.wx v :: r => v :: xVals r
  | WAction.wy _ :: r => xVals r
  | WAction.wz _ :: r => xVals r

/-- The values a list of atomic operations appends to `y_positions`. -/
def yVals : List WAction → List Rat
  | [] => []
  | WAction.wx _ :: r => yVals r
  | WAction.wy v :: r => v :: yVals r
  | WAction.wz _ :: r => yVals r

/-- The values a list of atomic operations appends to `z_positions`. -/
def zVals : List WAction → List Rat
  | [] => []
  | WAction.wx _ :: r => zVals r
  | WAction.wy _ :: r => zVals r
  | WAction.wz v :: r => v :: zVals r

theorem engineUpdate_latest (now : Rat) (s : GSState) :
    (engineUpdate now s).latest_quaternion = s.latest_quaternion := by
  unfold engineUpdate
  split <;> try rfl
  split <;> try rfl
  split <;> rfl

theorem engineUpdate_x (now : Rat) (s : GSState) :
    (engineUpdate now s).x_positions = s.x_positions := by
  unfold engineUpdate
  split <;> try rfl
  split <;> try rfl
  split <;> rfl

theorem engineUpdate_y (now : Rat) (s : GSState) :
    (engineUpdate now s).y_positions = s.y_positions := by
  unfold engineUpdate
  split <;> try rfl
  split <;> try rfl
  split <;> rfl

theorem engineUpdate_z (now : Rat) (s : GSState) :
    (engineUpdate now s).z_positions = s.z_positions := by
  unfold engineUpdate
  split <;> try rfl
  split <;> try rfl
  split <;> rfl

theorem engineUpdate_raw (now : Rat) (s : GSState) :
    (engineUpdate now s).raw_serial_lines = s.raw_serial_lines := by
  unfold engineUpdate
  split <;> try rfl
  split <;> try rfl
  split <;> rfl

/-- C1 (corrected): a `DATA:` line with a missing or non-numeric field
among its first seven never changes the position trail, but the discard
is not atomic: `latest_attitude` is overwritten with the reordered
quaternion whenever the first four fields parse, and stays unchanged only
when they do not. -/
theorem C1_malformed_frame_effects (now : Rat) (st : GSState) (line : List Char)
    (hd : startsWithData line = true)
    (hbad : ∃ i, i < 7 ∧ parseField (dataFields line) i = none) :
    (processLine now st line).x_positions = st.x_positions ∧
    (processLine now st line).y_positions = st.y_positions ∧
    (processLine now st line).z_positions = st.z_positions ∧
    (∀ qw qx qy qz, parseField (dataFields line) 0 = some qw →
        parseField (dataFields line) 1 = some qx →
        parseField (dataFields line) 2 = some qy →
        parseField (dataFields line) 3 = some qz →
        (processLine now st line).latest_quaternion = (qx, qy, qz, qw)) ∧
    ((parseField (dataFields line) 0 = none ∨ parseField (dataFields line) 1 = none ∨
      parseField (dataFields line) 2 = none ∨ parseField (dataFields line) 3 = none) →
        (processLine now st line).latest_quaternion = st.latest_quaternion) := by
  obtain ⟨i, hi, hnone⟩ := hbad
  cases h0 : parseField (dataFields line) 0 with
  | none => simp_all [processLine, hd]
  | some q0 =>
    cases h1 : parseField (dataFields line) 1 with
    | none => simp_all [processLine, hd]
    | some q1 =>
      cases h2 : parseField (dataFields line) 2 with
      | none => simp_all [processLine, hd]
      | some q2 =>
        cases h3 : parseField (dataFields line) 3 with
        | none => simp_all [processLine, hd]
        | some q3 => interval_cases i <;> simp_all [processLine, hd]

/-- C1 witness: `DATA:2,0,0,0,1,x` has a bad sixth field, leaves the
trail untouched, yet updates the attitude to `(0,0,0,2)`. -/
theorem C1_malformed_frame_effects_witness :
    startsWithData (("DATA:2,0,0,0,1,x").toList) = true ∧
    parseField (dataFields (("DATA:2,0,0,0,1,x").toList)) 5 = none ∧
    (processLine 0 initialState (("DATA:2,0,0,0,1,x").toList)).x_positions =
      initialState.x_positions ∧
    (processLine 0 initialState (("DATA:2,0,0,0,1,x").toList)).y_positions =
      initialState.y_positions ∧
    (processLine 0 initialState (("DATA:2,0,0,0,1,x").toList)).z_positions =
      initialState.z_positions ∧
    (processLine 0 initialState (("DATA:2,0,0,0,1,x").toList)).latest_quaternion =
      (0, 0, 0, 2) :=
  ⟨by decide, by decide,
    (C1_malformed_frame_effects 0 initialState (("DATA:2,0,0,0,1,x").toList)
      (by decide) ⟨5, by decide, by decide⟩).1,
    (C1_malformed_frame_effects 0 initialState (("DATA:2,0,0,0,1,x").toList)
      (by decide) ⟨5, by decide, by decide⟩).2.1,
    (C1_malformed_frame_effects 0 initialState (("DATA:2,0,0,0,1,x").toList)
      (by decide) ⟨5, by decide, by decide⟩).2.2.1,
    (C1_malformed_frame_effects 0 initialState (("DATA:2,0,0,0,1,x").toList)
      (by decide) ⟨5, by decide, by decide⟩).2.2.2.1 2 0 0 0
      (by decide) (by decide) (by decide) (by decide)⟩

/-- C1 counterexample: `DATA:2,0,0,0` has fewer than 7 comma-separated
fields after the prefix, yet processing it changes `latest_attitude`
(to `(0,0,0,2)`): the malformed frame is partially applied, refuting the
claim that both buffers always stay unchanged. -/
theorem C1_counterexample :
    (splitOnChar ',' ((("DATA:2,0,0,0").toList).drop 5)).length < 7 ∧
    startsWithData (("DATA:2,0,0,0").toList) = true ∧
    (processLine 0 initialState (("DATA:2,0,0,0").toList)).latest_quaternion ≠
      initialState.latest_quaternion := by decide

/-- C2 (confirmed): on a well-formed `DATA:qw,qx,qy,qz,x,y,z` line the
decoder stores the quaternion reordered from wire order (scalar first)
into the internal `(qx,qy,qz,qw)` order and appends `(x,y,z)` to the
three position deques. -/
theorem C2_decode_reorder_append (now : Rat) (st : GSState) (line : List Char)
    (qw qx qy qz x y z : Rat)
    (hd : startsWithData line = true)
    (_hlen : (dataFields line).length = 7)
    (h0 : parseField (dataFields line) 0 = some qw)
    (h1 : parseField (dataFields line) 1 = some qx)
    (h2 : parseField (dataFields line) 2 = some qy)
    (h3 : parseField (dataFields line) 3 = some qz)
    (h4 : parseField (dataFields line) 4 = some x)
    (h5 : parseField (dataFields line) 5 = some y)
    (h6 : parseField (dataFields line) 6 = some z) :
    (processLine now st line).latest_quaternion = (qx, qy, qz, qw) ∧
    (processLine now st line).x_positions = dappend 500 st.x_positions x ∧
    (processLine now st line).y_positions = dappend 500 st.y_positions y ∧
    (processLine now st line).z_positions = dappend 500 st.z_positions z := by
  simp only [processLine, hd, h0, h1, h2, h3, h4, h5, h6, if_true,
    engineUpdate_latest, engineUpdate_x, engineUpdate_y, engineUpdate_z]
  exact ⟨trivial, trivial, trivial, trivial⟩

/-- C2 witness: feeding `DATA:0.7071,0,0,0.7071,1,2,3` to the fresh state
yields internal attitude `(0, 0, 0.7071, 0.7071)` and a trail ending in
`(1, 2, 3)`. -/
theorem C2_decode_reorder_append_witness :
    (processLine 0 initialState (("DATA:0.7071,0,0,0.7071,1,2,3").toList)).latest_quaternion =
      (0, 0, mkRat 7071 10000, mkRat 7071 10000) ∧
    (processLine 0 initialState (("DATA:0.7071,0,0,0.7071,1,2,3").toList)).x_positions = [1] ∧
    (processLine 0 initialState (("DATA:0.7071,0,0,0.7071,1,2,3").toList)).y_positions = [2] ∧
    (processLine 0 initialState (("DATA:0.7071,0,0,0.7071,1,2,3").toList)).z_positions = [3] := by
  obtain ⟨ha, hb, hc, hd⟩ :=
    C2_decode_reorder_append 0 initialState (("DATA:0.7071,0,0,0.7071,1,2,3").toList)
      (mkRat 7071 10000) 0 0 (mkRat 7071 10000) 1 2 3
      (by decide) (by decide) (by decide) (by decide) (by decide) (by decide)
      (by decide) (by decide) (by decide)
  refine ⟨ha, ?_, ?_, ?_⟩
  · rw [hb]; decide
  · rw [hc]; decide
  · rw [hd]; decide

/-- C3 counterexample: `DATA:2,0,0,0,5,6,7,8` splits into more than 7
fields after the prefix, yet it is not rejected: both the attitude and
the trail change, refuting the claim that only exactly-7-field lines
produce a frame. -/
theorem C3_counterexample :
    7 < (splitOnChar ',' ((("DATA:2,0,0,0,5,6,7,8").toList).drop 5)).length ∧
    startsWithData (("DATA:2,0,0,0,5,6,7,8").toList) = true ∧
    (processLine 0 initialState (("DATA:2,0,0,0,5,6,7,8").toList)).x_positions ≠
      initialState.x_positions ∧
    (processLine 0 initialState (("DATA:2,0,0,0,5,6,7,8").toList)).latest_quaternion ≠
      initialState.latest_quaternion := by decide

/-- C3 (corrected): a `DATA:` line whose payload splits into more than 7
comma-separated fields is not treated as malformed: when its first seven
fields all parse numerically, the frame built from them is applied
(quaternion reordered, position appended) and the extra fields are
ignored. -/
theorem C3_extra_fields_accepted (now : Rat) (st : GSState) (line : List Char)
    (qw qx qy qz x y z : Rat)
    (hd : startsWithData line = true)
    (_hlen : 7 < (dataFields line).length)
    (h0 : parseField (dataFields line) 0 = some qw)
    (h1 : parseField (dataFields line) 1 = some qx)
    (h2 : parseField (dataFields line) 2 = some qy)
    (h3 : parseField (dataFields line) 3 = some qz)
    (h4 : parseField (dataFields line) 4 = some x)
    (h5 : parseField (dataFields line) 5 = some y)
    (h6 : parseField (dataFields line) 6 = some z) :
    (processLine now st line).latest_quaternion = (qx, qy, qz, qw) ∧
    (processLine now st line).x_positions = dappend 500 st.x_positions x ∧
    (processLine now st line).y_positions = dappend 500 st.y_positions y ∧
    (processLine now st line).z_positions = dappend 500 st.z_positions z := by
  simp only [processLine, hd, h0, h1, h2, h3, h4, h5, h6, if_true,
    engineUpdate_latest, engineUpdate_x, engineUpdate_y, engineUpdate_z]
  exact ⟨trivial, trivial, trivial, trivial⟩

/-- C3 witness: the 8-field line is applied, with the eighth field
ignored. -/
theorem C3_extra_fields_accepted_witness :
    (processLine 0 initialState (("DATA:2,0,0,0,5,6,7,8").toList)).latest_quaternion =
      (0, 0, 0, 2) ∧
    (processLine 0 initialState (("DATA:2,0,0,0,5,6,7,8").toList)).x_positions = [5] ∧
    (processLine 0 initialState (("DATA:2,0,0,0,5,6,7,8").toList)).y_positions = [6] ∧
    (processLine 0 initialState (("DATA:2,0,0,0,5,6,7,8").toList)).z_positions = [7] := by
  obtain ⟨ha, hb, hc, hd⟩ :=
    C3_extra_fields_accepted 0 initialState (("DATA:2,0,0,0,5,6,7,8").toList)
      2 0 0 0 5 6 7
      (by decide) (by decide) (by decide) (by decide) (by decide) (by decide)
      (by decide) (by decide) (by decide)
  refine ⟨ha, ?_, ?_, ?_⟩
  · rw [hb]; decide
  · rw [hc]; decide
  · rw [hd]; decide

/-- C5 (confirmed): after `disconnect_serial` the state is back at the
defaults — identity attitude `(0,0,0,1)`, empty position trail and
raw-line buffer, every engine flag `false` (with the flag array keeping
its length, three in every reachable state), and no session start. -/
theorem C5_disconnect_resets (st : GSState) :
    (disconnect_serial st).latest_quaternion = (0, 0, 0, 1) ∧
    (disconnect_serial st).x_positions = [] ∧
    (disconnect_serial st).y_positions = [] ∧
    (disconnect_serial st).z_positions = [] ∧
    (disconnect_serial st).raw_serial_lines = [] ∧
    (∀ b ∈ (disconnect_serial st).engine_states, b = false) ∧
    (disconnect_serial st).engine_states.length = st.engine_states.length ∧
    (disconnect_serial st).start_time = none := by
  refine ⟨rfl, rfl, rfl, rfl, rfl, ?_, ?_, rfl⟩ <;> simp [disconnect_serial]

/-- C6 (confirmed): a line that does not start with `DATA:` leaves every
piece of state unchanged except the raw-line diagnostic buffer, to which
the decoded text is appended (with FIFO eviction at capacity 200). -/
theorem C6_non_data_line (now : Rat) (st : GSState) (line : List Char)
    (h : startsWithData line = false) :
    processLine now st line =
      { st with raw_serial_lines := dappend 200 st.raw_serial_lines line } := by
  simp [processLine, h]

/-- C6 witness at the non-telemetry line `hello`. -/
theorem C6_non_data_line_witness :
    startsWithData (("hello").toList) = false ∧
    processLine 0 initialState (("hello").toList) =
      { initialState with
          raw_serial_lines := dappend 200 initialState.raw_serial_lines (("hello").toList) } :=
  ⟨by decide, C6_non_data_line 0 initialState (("hello").toList) (by decide)⟩

theorem foldl_dappend_eq {α : Type} (cap : Nat) (hc : 0 < cap) :
    ∀ (ps init : List α), init.length ≤ cap →
      ps.foldl (dappend cap) init =
        (init ++ ps).drop (init.length + ps.length - cap) := by
  intro ps
  induction ps with
  | nil =>
    intro init hle
    simp [Nat.sub_eq_zero_of_le hle]
  | cons p ps ih =>
    intro init hle
    rw [List.foldl_cons]
    by_cases hfull : cap ≤ init.length
    · have hlen : init.length = cap := Nat.le_antisymm hle hfull
      match init with
      | [] =>
        simp at hlen
        omega
      | a :: t =>
        have hfull1 : cap ≤ t.length + 1 := by simpa using hfull
        have hstep : dappend cap (a :: t) p = t ++ [p] := by
          simp [dappend, hfull1]
        rw [hstep]
        have hlt : t.length + 1 = cap := by simpa using hlen
        have ht : (t ++ [p]).length ≤ cap := by simp; omega
        rw [ih (t ++ [p]) ht]
        have hidx1 : (t ++ [p]).length + ps.length - cap = ps.length := by
          simp; omega
        have hidx2 : (a :: t).length + (p :: ps).length - cap = ps.length + 1 := by
          simp; omega
        rw [hidx1, hidx2, List.append_assoc]
        simp [List.cons_append, List.singleton_append]
    · have hstep : dappend cap init p = init ++ [p] := by
        simp [dappend, hfull]
      rw [hstep]
      have ht : (init ++ [p]).length ≤ cap := by simp; omega
      rw [ih (init ++ [p]) ht]
      have hidx : (init ++ [p]).length + ps.length = init.length + (p :: ps).length := by
        simp; omega
      rw [List.append_assoc, hidx]
      simp [List.cons_append, List.singleton_append]

theorem foldTrail_eq_takeLast (ps : List Rat) :
    foldTrail 500 ps = takeLast 500 ps := by
  have h := foldl_dappend_eq 500 (by omega) ps [] (by simp)
  simpa [foldTrail, takeLast] using h

/-- C4 (confirmed): folding any sequence of `N` applied positions through
the capacity-500 deque append leaves exactly the most recent
`min N 500` positions, in arrival order, the oldest evicted first; in
particular after the 600 frames with positions `1,…,600` the trail is
exactly positions `101,…,600` (the input with its first 100 entries
dropped). -/
theorem C4_trail_fifo_capacity (ps : List Rat) :
    (foldTrail 500 ps).length = min ps.length 500 ∧
    foldTrail 500 ps = takeLast 500 ps ∧
    foldTrail 500 ((List.range 600).map (fun i => ((i + 1 : Nat) : Rat))) =
      ((List.range 600).map (fun i => ((i + 1 : Nat) : Rat))).drop 100 := by
  refine ⟨?_, foldTrail_eq_takeLast ps, ?_⟩
  · rw [foldTrail_eq_takeLast ps]
    simp [takeLast]
    omega
  · rw [foldTrail_eq_takeLast]
    simp [takeLast]

theorem tail_set0 {α : Type} (l : List α) (b : α) : (l.set 0 b).tail = l.tail := by
  cases l <;> rfl

theorem engineUpdate_cases (now : Rat) (s : GSState) :
    ((engineUpdate now s).engine_states = s.engine_states ∧
      (engineUpdate now s).last_toggle_time = s.last_toggle_time) ∨
    ((engineUpdate now s).engine_states =
        s.engine_states.set 0 (! s.engine_states.headD false) ∧
      ∃ s0, s.start_time = some s0 ∧
        Int.emod (pyInt (now - s0)) 5 = 0 ∧ pyInt (now - s0) ≠ 0 ∧
        (5 : Rat) < now - s.last_toggle_time) := by
  unfold engineUpdate
  cases hst : s.start_time with
  | none => exact Or.inl ⟨rfl, rfl⟩
  | some s0 =>
    dsimp only
    split
    · next hcond =>
      split
      · next hlt => exact Or.inr ⟨rfl, s0, rfl, hcond.1, hcond.2, hlt⟩
      · exact Or.inl ⟨rfl, rfl⟩
    · exact Or.inl ⟨rfl, rfl⟩

theorem processLine_engine (now : Rat) (st : GSState) (line : List Char) :
    (processLine now st line).engine_states = st.engine_states ∨
    ((processLine now st line).engine_states =
        st.engine_states.set 0 (! st.engine_states.headD false) ∧
      ∃ s0, st.start_time = some s0 ∧
        Int.emod (pyInt (now - s0)) 5 = 0 ∧ pyInt (now - s0) ≠ 0 ∧
        (5 : Rat) < now - st.last_toggle_time) := by
  by_cases hd : startsWithData line = true
  · cases h0 : parseField (dataFields line) 0 with
    | none => left; simp [processLine, hd, h0]
    | some q0 =>
      cases h1 : parseField (dataFields line) 1 with
      | none => left; simp [processLine, hd, h0, h1]
      | some q1 =>
        cases h2 : parseField (dataFields line) 2 with
        | none => left; simp [processLine, hd, h0, h1, h2]
        | some q2 =>
          cases h3 : parseField (dataFields line) 3 with
          | none => left; simp [processLine, hd, h0, h1, h2, h3]
          | some q3 =>
            cases h4 : parseField (dataFields line) 4 with
            | none => left; simp [processLine, hd, h0, h1, h2, h3, h4]
            | some v4 =>
              cases h5 : parseField (dataFields line) 5 with
              | none => left; simp [processLine, hd, h0, h1, h2, h3, h4, h5]
              | some v5 =>
                cases h6 : parseField (dataFields line) 6 with
                | none => left; simp [processLine, hd, h0, h1, h2, h3, h4, h5, h6]
                | some v6 =>
                  simp only [processLine, hd, h0, h1, h2, h3, h4, h5, h6, if_true]
                  exact (engineUpdate_cases now _).imp And.left id
  · left
    simp [processLine, hd]

/-- C7 (confirmed): during ingestion engine flag 0 changes only when the
truncated integer seconds elapsed since session start are a nonzero
multiple of 5 and at least 5 seconds have passed since the previous
toggle (the code requires strictly more than 5), and engine flags 1 and 2
are never changed by the read loop. -/
theorem C7_engine_toggle_conditions (now : Rat) (st : GSState) (line : List Char)
    (s0 : Rat) (h : st.start_time = some s0) :
    ((processLine now st line).engine_states.headD false ≠
        st.engine_states.headD false →
      (5 : Int) ∣ pyInt (now - s0) ∧ pyInt (now - s0) ≠ 0 ∧
        (5 : Rat) ≤ now - st.last_toggle_time) ∧
    (processLine now st line).engine_states.tail = st.engine_states.tail := by
  rcases processLine_engine now st line with he | ⟨he, s1, hs1, hm, hnz, hlt⟩
  · exact ⟨fun hcontra => absurd (by rw [he]) hcontra, by rw [he]⟩
  · have hss : s1 = s0 := Option.some.inj (hs1.symm.trans h)
    subst hss
    exact ⟨fun _ => ⟨Int.dvd_of_emod_eq_zero hm, hnz, le_of_lt hlt⟩,
      by rw [he, tail_set0]⟩

/-- C7 witness: ten seconds into the session a valid frame arrives; the
theorem's hypotheses hold and flags 1 and 2 are untouched. -/
theorem C7_engine_toggle_conditions_witness :
    ({ initialState with start_time := some 0 } : GSState).start_time = some 0 ∧
    (((processLine 10 { initialState with start_time := some 0 }
          (("DATA:1,0,0,0,1,2,3").toList)).engine_states.headD false ≠
        ({ initialState with start_time := some 0 } : GSState).engine_states.headD false →
      (5 : Int) ∣ pyInt ((10 : Rat) - 0) ∧ pyInt ((10 : Rat) - 0) ≠ 0 ∧
        (5 : Rat) ≤ (10 : Rat) -
          ({ initialState with start_time := some 0 } : GSState).last_toggle_time) ∧
    (processLine 10 { initialState with start_time := some 0 }
        (("DATA:1,0,0,0,1,2,3").toList)).engine_states.tail =
      ({ initialState with start_time := some 0 } : GSState).engine_states.tail) :=
  ⟨rfl, C7_engine_toggle_conditions 10 { initialState with start_time := some 0 }
    (("DATA:1,0,0,0,1,2,3").toList) 0 rfl⟩

theorem foldl_min_le (t : List Rat) :
    ∀ a : Rat, t.foldl min a ≤ a ∧ ∀ x ∈ t, t.foldl min a ≤ x := by
  induction t with
  | nil => intro a; exact ⟨le_refl a, by simp⟩
  | cons b t ih =>
    intro a
    rw [List.foldl_cons]
    rcases ih (min a b) with ⟨h1, h2⟩
    refine ⟨le_trans h1 (min_le_left a b), ?_⟩
    intro x hx
    rcases List.mem_cons.mp hx with rfl | hx
    · exact le_trans h1 (min_le_right a x)
    · exact h2 x hx

theorem foldl_min_mem (t : List Rat) :
    ∀ a : Rat, t.foldl min a = a ∨ t.foldl min a ∈ t := by
  induction t with
  | nil => intro a; exact Or.inl rfl
  | cons b t ih =>
    intro a
    rw [List.foldl_cons]
    rcases ih (min a b) with h | h
    · rcases min_choice a b with hab | hab
      · exact Or.inl (h.trans hab)
      · exact Or.inr (List.mem_cons.mpr (Or.inl (h.trans hab)))
    · exact Or.inr (List.mem_cons_of_mem b h)

theorem foldl_max_ge (t : List Rat) :
    ∀ a : Rat, a ≤ t.foldl max a ∧ ∀ x ∈ t, x ≤ t.foldl max a := by
  induction t with
  | nil => intro a; exact ⟨le_refl a, by simp⟩
  | cons b t ih =>
    intro a
    rw [List.foldl_cons]
    rcases ih (max a b) with ⟨h1, h2⟩
    refine ⟨le_trans (le_max_left a b) h1, ?_⟩
    intro x hx
    rcases List.mem_cons.mp hx with rfl | hx
    · exact le_trans (le_max_right a x) h1
    · exact h2 x hx

theorem foldl_max_mem (t : List Rat) :
    ∀ a : Rat, t.foldl max a = a ∨ t.foldl max a ∈ t := by
  induction t with
  | nil => intro a; exact Or.inl rfl
  | cons b t ih =>
    intro a
    rw [List.foldl_cons]
    rcases ih (max a b) with h | h
    · rcases max_choice a b with hab | hab
      · exact Or.inl (h.trans hab)
      · exact Or.inr (List.mem_cons.mpr (Or.inl (h.trans hab)))
    · exact Or.inr (List.mem_cons_of_mem b h)

theorem listMin_le (l : List Rat) (x : Rat) (hx : x ∈ l) : listMin l ≤ x := by
  cases l with
  | nil => simp at hx
  | cons a t =>
    unfold listMin
    rcases List.mem_cons.mp hx with hx | hx
    · exact hx ▸ (foldl_min_le t a).1
    · exact (foldl_min_le t a).2 x hx

theorem le_listMax (l : List Rat) (x : Rat) (hx : x ∈ l) : x ≤ listMax l := by
  cases l with
  | nil => simp at hx
  | cons a t =>
    unfold listMax
    rcases List.mem_cons.mp hx with hx | hx
    · exact hx ▸ (foldl_max_ge t a).1
    · exact (foldl_max_ge t a).2 x hx

theorem listMin_mem (l : List Rat) (h : l ≠ []) : listMin l ∈ l := by
  cases l with
  | nil => exact absurd rfl h
  | cons a t =>
    show List.foldl min a t ∈ a :: t
    rcases foldl_min_mem t a with h1 | h1
    · rw [h1]; exact List.mem_cons_self a t
    · exact List.mem_cons_of_mem a h1

theorem listMax_mem (l : List Rat) (h : l ≠ []) : listMax l ∈ l := by
  cases l with
  | nil => exact absurd rfl h
  | cons a t =>
    show List.foldl max a t ∈ a :: t
    rcases foldl_max_mem t a with h1 | h1
    · rw [h1]; exact List.mem_cons_self a t
    · exact List.mem_cons_of_mem a h1

/-- C9 counterexample: with a one-point trail the trail is non-empty but
the bounds are set to the fixed default, not to min/max ± 1 (the code
tests `len(x_positions) > 1`, not non-emptiness); and with an empty trail
the bounds are left at their previous values rather than reset to the
default range. -/
theorem C9_counterexample :
    ({ initialState with x_positions := [1], y_positions := [2], z_positions := [3] } : GSState).x_positions ≠ [] ∧
    updateBounds { initialState with x_positions := [1], y_positions := [2], z_positions := [3] } defaultBounds = defaultBounds ∧
    defaultBounds.xlim ≠ (listMin [(1 : Rat)] - 1, listMax [(1 : Rat)] + 1) ∧
    updateBounds initialState { xlim := (0, 1), ylim := (0, 1), zlim := (0, 1) } ≠
      defaultBounds := by
  with_unfolding_all decide

/-- C9 (corrected): the position-plot bounds equal the min/max of each
deque extended by the fixed 1.0 margin only when the trail has more than
one point (with `listMin`/`listMax` genuinely the least and greatest
elements); a one-point trail yields the fixed default ±10 range, and an
empty trail leaves the bounds unchanged from the previous tick. -/
theorem C9_bounds_cases (st : GSState) (prev : Bounds) :
    ((st.x_positions = [] ∨ st.y_positions = [] ∨ st.z_positions = []) →
      updateBounds st prev = prev) ∧
    (st.x_positions ≠ [] → st.y_positions ≠ [] → st.z_positions ≠ [] →
      (st.x_positions.length ≤ 1 → updateBounds st prev = defaultBounds) ∧
      (1 < st.x_positions.length →
        updateBounds st prev =
          { xlim := (listMin st.x_positions - 1, listMax st.x_positions + 1),
            ylim := (listMin st.y_positions - 1, listMax st.y_positions + 1),
            zlim := (listMin st.z_positions - 1, listMax st.z_positions + 1) } ∧
        (∀ p ∈ st.x_positions, listMin st.x_positions ≤ p ∧ p ≤ listMax st.x_positions) ∧
        listMin st.x_positions ∈ st.x_positions ∧
        listMax st.x_positions ∈ st.x_positions ∧
        (∀ p ∈ st.y_positions, listMin st.y_positions ≤ p ∧ p ≤ listMax st.y_positions) ∧
        listMin st.y_positions ∈ st.y_positions ∧
        listMax st.y_positions ∈ st.y_positions ∧
        (∀ p ∈ st.z_positions, listMin st.z_positions ≤ p ∧ p ≤ listMax st.z_positions) ∧
        listMin st.z_positions ∈ st.z_positions ∧
        listMax st.z_positions ∈ st.z_positions)) := by
  constructor
  · intro hemp
    have hcond : ¬(st.x_positions ≠ [] ∧ st.y_positions ≠ [] ∧ st.z_positions ≠ []) := by
      tauto
    simp [updateBounds, hcond]
  · intro hx hy hz
    constructor
    · intro hle
      have hnlt : ¬ 1 < st.x_positions.length := by omega
      simp [updateBounds, hx, hy, hz, hnlt]
    · intro hlt
      refine ⟨by simp [updateBounds, hx, hy, hz, hlt], ?_, ?_, ?_, ?_, ?_, ?_, ?_, ?_, ?_⟩
      · exact fun p hp => ⟨listMin_le _ p hp, le_listMax _ p hp⟩
      · exact listMin_mem _ hx
      · exact listMax_mem _ hx
      · exact fun p hp => ⟨listMin_le _ p hp, le_listMax _ p hp⟩
      · exact listMin_mem _ hy
      · exact listMax_mem _ hy
      · exact fun p hp => ⟨listMin_le _ p hp, le_listMax _ p hp⟩
      · exact listMin_mem _ hz
      · exact listMax_mem _ hz

/-- C9 witness: a two-point trail produces min/max ± 1 bounds. -/
theorem C9_bounds_cases_witness :
    ({ initialState with x_positions := [(1 : Rat), 3], y_positions := [(2 : Rat), 2], z_positions := [(5 : Rat), 4] } : GSState).x_positions ≠ [] ∧
    1 < ({ initialState with x_positions := [(1 : Rat), 3], y_positions := [(2 : Rat), 2], z_positions := [(5 : Rat), 4] } : GSState).x_positions.length ∧
    updateBounds { initialState with x_positions := [(1 : Rat), 3], y_positions := [(2 : Rat), 2], z_positions := [(5 : Rat), 4] } defaultBounds =
      { xlim := (listMin [(1 : Rat), 3] - 1, listMax [(1 : Rat), 3] + 1),
        ylim := (listMin [(2 : Rat), 2] - 1, listMax [(2 : Rat), 2] + 1),
        zlim := (listMin [(5 : Rat), 4] - 1, listMax [(5 : Rat), 4] + 1) } :=
  ⟨by decide, by decide,
    (((C9_bounds_cases
        { initialState with x_positions := [(1 : Rat), 3], y_positions := [(2 : Rat), 2], z_positions := [(5 : Rat), 4] }
        defaultBounds).2 (by decide) (by decide) (by decide)).2 (by decide)).1⟩

theorem splitOnChar_ne_nil (c : Char) (l : List Char) : splitOnChar c l ≠ [] := by
  induction l with
  | nil => simp [splitOnChar]
  | cons x xs ih =>
    simp only [splitOnChar]
    by_cases hx : x = c
    · simp [hx]
    · simp only [hx, if_false]
      cases hr : splitOnChar c xs with
      | nil => simp
      | cons h t => simp

theorem splitOnChar_no_sep (c : Char) (p : List Char) (hp : c ∉ p) :
    splitOnChar c p = [p] := by
  induction p with
  | nil => rfl
  | cons x xs ih =>
    have hx : ¬ x = c := fun h => hp (h ▸ List.mem_cons_self x xs)
    have hxs : c ∉ xs := fun h => hp (List.mem_cons_of_mem x h)
    simp only [splitOnChar, hx, if_false, ih hxs]

theorem splitOnChar_sep_append (c : Char) (p rest : List Char) (hp : c ∉ p) :
    splitOnChar c (p ++ c :: rest) = p :: splitOnChar c rest := by
  induction p with
  | nil => simp [splitOnChar]
  | cons x xs ih =>
    have hx : ¬ x = c := fun h => hp (h ▸ List.mem_cons_self x xs)
    have hxs : c ∉ xs := fun h => hp (List.mem_cons_of_mem x h)
    show splitOnChar c (x :: (xs ++ c :: rest)) = (x :: xs) :: splitOnChar c rest
    simp only [splitOnChar, hx, if_false]
    rw [ih hxs]

theorem engineUpdate_raw_override (now : Rat) (s : GSState) (r : List (List Char)) :
    engineUpdate now { s with raw_serial_lines := r } =
      { engineUpdate now s with raw_serial_lines := r } := by
  cases hst : s.start_time with
  | none => simp [engineUpdate, hst]
  | some s0 =>
    by_cases hcond : Int.emod (pyInt (now - s0)) 5 = 0 ∧ pyInt (now - s0) ≠ 0
    · by_cases hlt : (5 : Rat) < now - s.last_toggle_time
      · simp [engineUpdate, hst, hcond, hlt]
      · simp [engineUpdate, hst, hcond, hlt]
    · simp [engineUpdate, hst, hcond]

theorem processLine_congr (now : Rat) (st : GSState) (l1 l2 : List Char)
    (hs : startsWithData l1 = startsWithData l2)
    (hf : dataFields l1 = dataFields l2) :
    processLine now st l1 =
      { processLine now st l2 with
          raw_serial_lines := dappend 200 st.raw_serial_lines l1 } := by
  unfold processLine
  rw [hs, hf]
  by_cases hd : startsWithData l2 = true
  · cases h0 : parseField (dataFields l2) 0 with
    | none => simp [hd, h0]
    | some q0 =>
      cases h1 : parseField (dataFields l2) 1 with
      | none => simp [hd, h0, h1]
      | some q1 =>
        cases h2 : parseField (dataFields l2) 2 with
        | none => simp [hd, h0, h1, h2]
        | some q2 =>
          cases h3 : parseField (dataFields l2) 3 with
          | none => simp [hd, h0, h1, h2, h3]
          | some q3 =>
            cases h4 : parseField (dataFields l2) 4 with
            | none => simp [hd, h0, h1, h2, h3, h4]
            | some v4 =>
              cases h5 : parseField (dataFields l2) 5 with
              | none => simp [hd, h0, h1, h2, h3, h4, h5]
              | some v5 =>
                cases h6 : parseField (dataFields l2) 6 with
                | none => simp [hd, h0, h1, h2, h3, h4, h5, h6]
                | some v6 =>
                  simp only [hd, h0, h1, h2, h3, h4, h5, h6, if_true]
                  exact engineUpdate_raw_override now
                    { latest_quaternion := (q1, q2, q3, q0),
                      x_positions := dappend 500 st.x_positions v4,
                      y_positions := dappend 500 st.y_positions v5,
                      z_positions := dappend 500 st.z_positions v6,
                      engine_states := st.engine_states,
                      raw_serial_lines := dappend 200 st.raw_serial_lines l2,
                      start_time := st.start_time,
                      last_toggle_time := st.last_toggle_time }
                    (dappend 200 st.raw_serial_lines l1)
  · simp [hd]

/-- C10 (confirmed): for a `DATA:` line containing a further colon, only
the text between the first and second colon is parsed; everything after
the second colon is discarded, affecting nothing but the recorded raw
line.  So such a line is accepted or rejected exactly as the same line
truncated at its second colon would be. -/
theorem C10_second_colon_discard (now : Rat) (st : GSState) (p junk : List Char)
    (hp : ':' ∉ p) :
    processLine now st (("DATA:").toList ++ p ++ ':' :: junk) =
      { processLine now st (("DATA:").toList ++ p) with
          raw_serial_lines :=
            dappend 200 st.raw_serial_lines
              (("DATA:").toList ++ p ++ ':' :: junk) } := by
  have e1 : splitOnChar ':' (("DATA:").toList ++ p ++ ':' :: junk) =
      ['D', 'A', 'T', 'A'] :: p :: splitOnChar ':' junk := by
    have ha : (("DATA:").toList ++ p ++ ':' :: junk) =
        ['D', 'A', 'T', 'A'] ++ ':' :: (p ++ ':' :: junk) := rfl
    rw [ha, splitOnChar_sep_append ':' (['D', 'A', 'T', 'A']) _ (by decide),
      splitOnChar_sep_append ':' p junk hp]
  have e2 : splitOnChar ':' (("DATA:").toList ++ p) =
      ['D', 'A', 'T', 'A'] :: [p] := by
    have hb : (("DATA:").toList ++ p) = ['D', 'A', 'T', 'A'] ++ ':' :: p := rfl
    rw [hb, splitOnChar_sep_append ':' (['D', 'A', 'T', 'A']) _ (by decide),
      splitOnChar_no_sep ':' p hp]
  apply processLine_congr
  · rfl
  · unfold dataFields
    rw [e1, e2]
    rfl

/-- C10 witness: `DATA:1,0,0,0,1,2,3:junk` behaves exactly like
`DATA:1,0,0,0,1,2,3` apart from the raw line recorded. -/
theorem C10_second_colon_discard_witness :
    ':' ∉ ("1,0,0,0,1,2,3").toList ∧
    processLine 0 initialState
        (("DATA:").toList ++ ("1,0,0,0,1,2,3").toList ++ ':' :: ("junk").toList) =
      { processLine 0 initialState (("DATA:").toList ++ ("1,0,0,0,1,2,3").toList) with
          raw_serial_lines :=
            dappend 200 initialState.raw_serial_lines
              (("DATA:").toList ++ ("1,0,0,0,1,2,3").toList ++ ':' :: ("junk").toList) } :=
  ⟨by decide, C10_second_colon_discard 0 initialState (("1,0,0,0,1,2,3").toList)
    (("junk").toList) (by decide)⟩

theorem takeLast_length_le {α : Type} (n : Nat) (l : List α) :
    (takeLast n l).length ≤ n := by
  simp [takeLast]
  omega

theorem foldl_wstep_decompose (acts : List WAction) :
    ∀ s : Trails, acts.foldl wstep s =
      { xs := (xVals acts).foldl (dappend 500) s.xs,
        ys := (yVals acts).foldl (dappend 500) s.ys,
        zs := (zVals acts).foldl (dappend 500) s.zs } := by
  induction acts with
  | nil => intro s; rfl
  | cons a r ih =>
    intro s
    cases a with
    | wx v => rw [List.foldl_cons, ih]; rfl
    | wy v => rw [List.foldl_cons, ih]; rfl
    | wz v => rw [List.foldl_cons, ih]; rfl

theorem writerProgram_take_vals (frames : List (Rat × Rat × Rat)) :
    ∀ k : Nat, ∃ mx my mz : Nat,
      my ≤ mx ∧ mx ≤ my + 1 ∧ mz ≤ my ∧ my ≤ mz + 1 ∧ mx ≤ frames.length ∧
      xVals ((writerProgram frames).take k) = (frames.map (fun f => f.1)).take mx ∧
      yVals ((writerProgram frames).take k) = (frames.map (fun f => f.2.1)).take my ∧
      zVals ((writerProgram frames).take k) = (frames.map (fun f => f.2.2)).take mz := by
  induction frames with
  | nil =>
    intro k
    refine ⟨0, 0, 0, ?_, ?_, ?_, ?_, ?_, ?_, ?_, ?_⟩ <;>
      simp [writerProgram, xVals, yVals, zVals]
  | cons f fs ih =>
    intro k
    obtain ⟨x0, y0, z0⟩ := f
    match k with
    | 0 =>
      refine ⟨0, 0, 0, ?_, ?_, ?_, ?_, ?_, ?_, ?_, ?_⟩ <;>
        simp [xVals, yVals, zVals]
    | 1 =>
      refine ⟨1, 0, 0, ?_, ?_, ?_, ?_, ?_, ?_, ?_, ?_⟩ <;>
        simp [writerProgram, xVals, yVals, zVals]
    | 2 =>
      refine ⟨1, 1, 0, ?_, ?_, ?_, ?_, ?_, ?_, ?_, ?_⟩ <;>
        simp [writerProgram, xVals, yVals, zVals]
    | (k' + 3) =>
      obtain ⟨mx, my, mz, r1, r2, r3, r4, r5, hx, hy, hz⟩ := ih k'
      refine ⟨mx + 1, my + 1, mz + 1, by omega, by omega, by omega, by omega,
        by simpa using r5, ?_, ?_, ?_⟩ <;>
        simp [writerProgram, xVals, yVals, zVals, hx, hy, hz]

/-- C8 counterexample: with one frame `(1,2,3)` being applied, a snapshot
taken after the writer's `x_positions.append` but before its
`y_positions.append` (one atomic step into the unsynchronized writer
program) observes the x coordinate `1` with no matching y or z point: the
trail is torn, refuting the claim that a concurrent reader never observes
a partially-appended point. -/
theorem C8_counterexample :
    observeAt [((1 : Rat), 2, 3)] 1 = { xs := [1], ys := [], zs := [] } ∧
    (observeAt [((1 : Rat), 2, 3)] 1).xs.length ≠
      (observeAt [((1 : Rat), 2, 3)] 1).ys.length := by decide

/-- C8 (corrected): the reader can observe a torn, partially-appended
point, but each coordinate deque individually is safe at every
observation instant: its length never exceeds the capacity 500, its
contents are the most recent values written to that deque in insertion
order (a `takeLast` of a prefix of the written values), and the three
observed prefixes differ in length by at most one — only the in-flight
frame can be torn. -/
theorem C8_per_deque_safety (frames : List (Rat × Rat × Rat)) (k : Nat) :
    (observeAt frames k).xs.length ≤ 500 ∧
    (observeAt frames k).ys.length ≤ 500 ∧
    (observeAt frames k).zs.length ≤ 500 ∧
    ∃ mx my mz : Nat, my ≤ mx ∧ mx ≤ my + 1 ∧ mz ≤ my ∧ my ≤ mz + 1 ∧
      mx ≤ frames.length ∧
      (observeAt frames k).xs = takeLast 500 ((frames.map (fun f => f.1)).take mx) ∧
      (observeAt frames k).ys = takeLast 500 ((frames.map (fun f => f.2.1)).take my) ∧
      (observeAt frames k).zs = takeLast 500 ((frames.map (fun f => f.2.2)).take mz) := by
  obtain ⟨mx, my, mz, r1, r2, r3, r4, r5, hx, hy, hz⟩ := writerProgram_take_vals frames k
  have hdec : observeAt frames k =
      { xs := foldTrail 500 (xVals ((writerProgram frames).take k)),
        ys := foldTrail 500 (yVals ((writerProgram frames).take k)),
        zs := foldTrail 500 (zVals ((writerProgram frames).take k)) } :=
    foldl_wstep_decompose _ _
  rw [hdec, hx, hy, hz]
  dsimp only
  rw [foldTrail_eq_takeLast, foldTrail_eq_takeLast, foldTrail_eq_takeLast]
  exact ⟨takeLast_length_le _ _, takeLast_length_le _ _, takeLast_length_le _ _,
    mx, my, mz, r1, r2, r3, r4, r5, rfl, rfl, rfl⟩
